import Mathlib

/-!
Verification development for the matching and assignment engine of
`src/model_dev/final_match.py`.

The embedding models Python float values as rationals extended with the
IEEE specials (`inf`, `-inf`, `nan`), dictionaries keyed by pair strings
`"<mentee_id>-<mentor_id>"` as insertion-ordered association lists keyed by
the integer pair `(mentee_id, mentor_id)`, and Python sets of small integer
identifiers as lists iterated in ascending order (CPython iterates small
nonnegative integer sets in ascending hash-slot order).
-/

/-- Python float values: a rational number or one of the IEEE specials. -/
inductive PyFloat
  | nan
  | negInf
  | fin (q : ℚ)
  | posInf
deriving DecidableEq

namespace PyFloat

/-- Python's `x > y` on floats: any comparison with `nan` is `False`,
`inf > inf` is `False`, and finite values compare as rationals. -/
def gt : PyFloat → PyFloat → Bool
  | nan, _ => false
  | _, nan => false
  | posInf, posInf => false
  | posInf, _ => true
  | _, posInf => false
  | fin a, fin b => decide (b < a)
  | fin _, negInf => true
  | negInf, _ => false

/-- Python float addition: `nan` propagates, `inf + (-inf)` is `nan`. -/
def add : PyFloat → PyFloat → PyFloat
  | nan, _ => nan
  | _, nan => nan
  | posInf, negInf => nan
  | negInf, posInf => nan
  | posInf, _ => posInf
  | _, posInf => posInf
  | negInf, _ => negInf
  | _, negInf => negInf
  | fin a, fin b => fin (a + b)

/-- Multiplication by a positive rational constant (the weights 0.7, 0.3). -/
def mulPos (c : ℚ) : PyFloat → PyFloat
  | nan => nan
  | posInf => posInf
  | negInf => negInf
  | fin q => fin (c * q)

/-- Round a rational to the nearest integer, ties to even
(the rule used by Python's `round`). -/
def roundHalfEven (q : ℚ) : ℤ :=
  let f := ⌊q⌋
  let r := q - (f : ℚ)
  if r < 1/2 then f
  else if 1/2 < r then f + 1
  else if 2 ∣ f then f else f + 1

/-- Round a rational to three decimal places, ties to even. -/
def round3Q (q : ℚ) : ℚ := (roundHalfEven (1000 * q) : ℚ) / 1000

/-- Python's `round(x, 3)`: specials are returned unchanged. -/
def round3 : PyFloat → PyFloat
  | nan => nan
  | negInf => negInf
  | posInf => posInf
  | fin q => fin (round3Q q)

theorem gt_irrefl (a : PyFloat) : gt a a = false := by
  cases a <;> simp [gt]

theorem gt_asymm {a b : PyFloat} (h : gt a b = true) : gt b a = false := by
  cases a <;> cases b <;> simp_all [gt] <;> linarith

theorem gt_trans {a b c : PyFloat} (h1 : gt a b = true) (h2 : gt b c = true) :
    gt a c = true := by
  cases a <;> cases b <;> cases c <;> simp_all [gt] <;> linarith

theorem not_gt_trans {a b c : PyFloat} (ha : a ≠ nan) (hb : b ≠ nan) (hc : c ≠ nan)
    (h1 : gt b a = false) (h2 : gt c b = false) : gt c a = false := by
  cases a <;> cases b <;> cases c <;> simp_all [gt] <;> linarith

end PyFloat

/-- Python values that can appear as a raw criterion score:
`None`, a number (int, float or bool, already as a float value), a string,
or some other object on which `float()` raises (a dict, a list, ...). -/
inductive PyVal
  | pynone
  | num (x : PyFloat)
  | str (s : String)
  | other
deriving DecidableEq

/-- Digits of a character list as a natural number; `none` when a
non-digit occurs.  `[]` maps to `some 0`, callers check nonemptiness. -/
def digitsToNat (cs : List Char) : Option ℕ :=
  cs.foldl
    (fun acc c =>
      match acc with
      | some n => if c.isDigit then some (10 * n + (c.toNat - 48)) else none
      | none => none)
    (some 0)

/-- Parse the unsigned mantissa of a Python float literal:
`digits`, `digits.`, `digits.digits` or `.digits`. -/
def parseUnsignedMantissa (cs : List Char) : Option ℚ :=
  let intPart := cs.takeWhile Char.isDigit
  let rest := cs.dropWhile Char.isDigit
  match rest with
  | [] =>
      if intPart.isEmpty then none
      else (digitsToNat intPart).map (fun n => (n : ℚ))
  | '.' :: frac =>
      if frac.all Char.isDigit then
        if intPart.isEmpty && frac.isEmpty then none
        else
          match digitsToNat intPart, digitsToNat frac with
          | some i, some f => some ((i : ℚ) + (f : ℚ) / (10 ^ frac.length))
          | _, _ => none
      else none
  | _ => none

/-- Parse an optionally signed nonempty digit string (a float exponent). -/
def parseSignedInt (cs : List Char) : Option ℤ :=
  match cs with
  | '+' :: ds =>
      if !ds.isEmpty && ds.all Char.isDigit then (digitsToNat ds).map (fun n => (n : ℤ))
      else none
  | '-' :: ds =>
      if !ds.isEmpty && ds.all Char.isDigit then (digitsToNat ds).map (fun n => -(n : ℤ))
      else none
  | ds =>
      if !ds.isEmpty && ds.all Char.isDigit then (digitsToNat ds).map (fun n => (n : ℤ))
      else none

/-- Remove the PEP 515 underscores of a numeric literal: every underscore
must sit between two digits, otherwise the literal is invalid
(`float("1_0")` is `10.0`, `float("1__0")`, `float("_1")`, `float("1_")`
raise `ValueError`). -/
def dropUnderscores : List Char → Option (List Char)
  | [] => some []
  | '_' :: _ => none
  | c :: '_' :: rest =>
      if c.isDigit then
        match rest with
        | [] => none
        | d :: _ =>
            if d.isDigit then (dropUnderscores rest).map (fun l => c :: l)
            else none
      else none
  | c :: rest => (dropUnderscores rest).map (fun l => c :: l)

/-- Parse an unsigned numeric float body: underscore removal, then a
mantissa with optional `e`-exponent (the input is already lowercased).
Digits are modelled as ASCII digits; Python additionally accepts any
Unicode decimal digit, an idealization in line with the exact-rational
number model. -/
def parseNumBody (cs : List Char) : Option ℚ :=
  match dropUnderscores cs with
  | none => none
  | some cs2 =>
      let mant := cs2.takeWhile (fun c => c ≠ 'e')
      let rest := cs2.dropWhile (fun c => c ≠ 'e')
      match rest with
      | [] => parseUnsignedMantissa mant
      | _ :: ex =>
          match parseUnsignedMantissa mant, parseSignedInt ex with
          | some m, some e => some (m * (10 : ℚ) ^ e)
          | _, _ => none

/-- The characters of a string lowercased, the model of `s.lower()`. -/
def lowerChars (s : String) : List Char := s.data.map Char.toLower

/-- Strip leading and trailing whitespace from a character list. -/
def stripChars (cs : List Char) : List Char :=
  ((cs.dropWhile Char.isWhitespace).reverse.dropWhile Char.isWhitespace).reverse

/-- Model of Python's `float(s)` on a string: strip surrounding whitespace,
lowercase, then an optional sign followed by `inf`, `infinity`, `nan` or a
numeric literal.  `none` models `float()` raising `ValueError`. -/
def pyStrToFloat (s : String) : Option PyFloat :=
  let cs := stripChars (lowerChars s)
  match cs with
  | '+' :: body =>
      if body = "inf".data ∨ body = "infinity".data then some PyFloat.posInf
      else if body = "nan".data then some PyFloat.nan
      else (parseNumBody body).map PyFloat.fin
  | '-' :: body =>
      if body = "inf".data ∨ body = "infinity".data then some PyFloat.negInf
      else if body = "nan".data then some PyFloat.nan
      else (parseNumBody body).map (fun q => PyFloat.fin (-q))
  | body =>
      if body = "inf".data ∨ body = "infinity".data then some PyFloat.posInf
      else if body = "nan".data then some PyFloat.nan
      else (parseNumBody body).map PyFloat.fin

/-- Model of `float(val)` applied to an arbitrary value: numbers pass
through, strings are parsed, `None` and other objects raise
(`TypeError`), modelled by `none`. -/
def pyFloatOf : PyVal → Option PyFloat
  | PyVal.pynone => none
  | PyVal.num x => some x
  | PyVal.str s => pyStrToFloat s
  | PyVal.other => none

/-- The inner `to_float` helper of `compute_final_matches_from_data`
(final_match.py lines 233-244): `None` maps to `0.0`, the strings
`inf`/`infinity` and `-inf`/`-infinity` (case-insensitively) map to the
infinities, anything else is converted with `float()` and any conversion
failure yields `0.0`.  Total by construction: it never raises. -/
def to_float (val : PyVal) : PyFloat :=
  match val with
  | PyVal.pynone => PyFloat.fin 0
  | PyVal.str s =>
      if lowerChars s = "inf".data ∨ lowerChars s = "infinity".data then PyFloat.posInf
      else if lowerChars s = "-inf".data ∨ lowerChars s = "-infinity".data then
        PyFloat.negInf
      else (pyFloatOf (PyVal.str s)).getD (PyFloat.fin 0)
  | v => (pyFloatOf v).getD (PyFloat.fin 0)

/-- A raw entry of a category result map: either a dict whose expected
score field is present (`dict (some v)`) or absent (`dict none`), or a
bare value. -/
inductive RawVal
  | dict (field : Option PyVal)
  | plain (v : PyVal)
deriving DecidableEq

/-- `data.get(field, data) if isinstance(data, dict) else data`: the score
field when the value is a dict holding it; the dict itself (never
convertible by `float`) when the field is missing; the bare value otherwise. -/
def extractScore : RawVal → PyVal
  | RawVal.dict (some v) => v
  | RawVal.dict none => PyVal.other
  | RawVal.plain v => v

/-- Python truthiness of a raw entry, used only for the age criterion:
a dict with the score field is truthy, a dict without it models the empty
default `{}` (falsy); bare values follow Python truthiness. -/
def rawTruthy : RawVal → Bool
  | RawVal.dict (some _) => true
  | RawVal.dict none => false
  | RawVal.plain PyVal.pynone => false
  | RawVal.plain (PyVal.num x) => !(x = PyFloat.fin 0 : Bool)
  | RawVal.plain (PyVal.str s) => !s.data.isEmpty
  | RawVal.plain PyVal.other => true

/-- A pair record as built by the aggregation loop of
`compute_final_matches_from_data` (all score fields already rounded). -/
structure Rec where
  total_score : PyFloat
  academic_score : PyFloat
  gender_score : PyFloat
  language_score : PyFloat
  distance_score : PyFloat
  age_difference_score : PyFloat
  valid : Bool
deriving DecidableEq

/-- The `combined` dictionary: an insertion-ordered map from the pair key
`(mentee_id, mentor_id)` to its record. -/
abbrev Combined : Type := List ((ℤ × ℤ) × Rec)

/-- The five normalized category result maps, insertion-ordered, keyed by
`(mentee_id, mentor_id)` (the string key `"mentee_id-mentor_id"`). -/
structure CatMaps where
  gender : List ((ℤ × ℤ) × RawVal)
  languages : List ((ℤ × ℤ) × RawVal)
  academia : List ((ℤ × ℤ) × RawVal)
  age_difference : List ((ℤ × ℤ) × RawVal)
  geographic_proximity : List ((ℤ × ℤ) × RawVal)

/-- First-match association lookup, the model of `dict.get(key)`. -/
def alookup (l : List ((ℤ × ℤ) × RawVal)) (k : ℤ × ℤ) : Option RawVal :=
  match l with
  | [] => none
  | (k', v) :: rest => if k' = k then some v else alookup rest k

/-- `category.get(pair, {})`: the stored raw value, or the empty dict. -/
def getRaw (m : List ((ℤ × ℤ) × RawVal)) (p : ℤ × ℤ) : RawVal :=
  (alookup m p).getD (RawVal.dict none)

/-- The extracted and coerced score of one category for one pair. -/
def criterionScore (m : List ((ℤ × ℤ) × RawVal)) (p : ℤ × ℤ) : PyFloat :=
  to_float (extractScore (getRaw m p))

/-- The candidate pair keys: the intersection of the key sets of the
gender, languages, academia and geographic maps, further intersected with
the age map when that one is nonempty.  The real code iterates a Python
set of strings (hash order); the model iterates in first-map insertion
order. -/
def allPairs (c : CatMaps) : List (ℤ × ℤ) :=
  let base := ((c.gender.map Prod.fst).dedup).filter
    (fun k =>
      k ∈ c.languages.map Prod.fst ∧ k ∈ c.academia.map Prod.fst ∧
      k ∈ c.geographic_proximity.map Prod.fst)
  if c.age_difference.isEmpty then base
  else base.filter (fun k => k ∈ c.age_difference.map Prod.fst)

/-- The mirrored key `"mentor_id-mentee_id"` of a pair key. -/
def swapKey (p : ℤ × ℤ) : ℤ × ℤ := (p.2, p.1)

/-- A manual match / non-match entry list hits a pair when it contains the
pair key in either orientation (final_match.py lines 264-274 check both
`"mentee-mentor"` and `"mentor-mentee"`). -/
def hitsList (entries : List (ℤ × ℤ)) (pair : ℤ × ℤ) : Bool :=
  decide (pair ∈ entries) || decide (swapKey pair ∈ entries)

/-- The body of the aggregation loop of `compute_final_matches_from_data`
(final_match.py lines 217-284) for one candidate pair: extract and coerce
the five criterion scores, validate on gender and language, combine
academia and distance with weights 0.7 / 0.3, then apply the manual match
and manual non-match overrides in that order, and round every stored
score to three decimals. -/
def combinePair (c : CatMaps) (manual_matches manual_non_matches : List (ℤ × ℤ))
    (pair : ℤ × ℤ) : Rec :=
  let g := criterionScore c.gender pair
  let lang := criterionScore c.languages pair
  let a := criterionScore c.academia pair
  let d := criterionScore c.geographic_proximity pair
  let ageData := if c.age_difference.isEmpty then RawVal.dict none
    else getRaw c.age_difference pair
  let age := if rawTruthy ageData then to_float (extractScore ageData) else PyFloat.fin 0
  let valid := PyFloat.gt g (PyFloat.fin 0) && PyFloat.gt lang (PyFloat.fin 0)
  let total := if valid then
      PyFloat.add (PyFloat.mulPos (7/10) a) (PyFloat.mulPos (3/10) d)
    else PyFloat.fin 0
  let total1 := if hitsList manual_matches pair then PyFloat.posInf else total
  let valid1 := if hitsList manual_matches pair then true else valid
  let total2 := if hitsList manual_non_matches pair then PyFloat.negInf else total1
  let valid2 := if hitsList manual_non_matches pair then false else valid1
  { total_score := PyFloat.round3 total2
    academic_score := PyFloat.round3 a
    gender_score := PyFloat.round3 g
    language_score := PyFloat.round3 lang
    distance_score := PyFloat.round3 d
    age_difference_score := PyFloat.round3 age
    valid := valid2 }

/-- The full `combined` dictionary built by the aggregation loop. -/
def combinedOf (c : CatMaps) (manual_matches manual_non_matches : List (ℤ × ℤ)) :
    Combined :=
  (allPairs c).map (fun p => (p, combinePair c manual_matches manual_non_matches p))

/-- Stable insertion of a scored pair into a list sorted by descending
score: walk past strictly greater scores, so equal scores keep their
input order (the semantics of Python's stable `sorted(..., reverse=True)`). -/
def insertDesc (x : (ℤ × ℤ) × PyFloat) :
    List ((ℤ × ℤ) × PyFloat) → List ((ℤ × ℤ) × PyFloat)
  | [] => [x]
  | y :: ys => if PyFloat.gt y.2 x.2 then y :: insertDesc x ys else x :: y :: ys

/-- Stable sort by `total_score` descending, the model of
`sorted(valid_pairs, key=lambda x: x[3], reverse=True)`. -/
def sortDesc : List ((ℤ × ℤ) × PyFloat) → List ((ℤ × ℤ) × PyFloat)
  | [] => []
  | x :: xs => insertDesc x (sortDesc xs)

/-- Ascending insertion for integer identifier lists. -/
def insertAsc (x : ℤ) : List ℤ → List ℤ
  | [] => [x]
  | y :: ys => if x ≤ y then x :: y :: ys else y :: insertAsc x ys

/-- Sort identifiers ascending: the iteration order of a CPython set of
small integer identifiers. -/
def sortAsc (l : List ℤ) : List ℤ := l.foldr insertAsc []

/-- The set `all_mentees` of `perform_matching`, iterated ascending. -/
def menteesOf (combined : Combined) : List ℤ :=
  sortAsc ((combined.map (fun kr => kr.1.1)).dedup)

/-- The set `all_mentors` of `perform_matching`, iterated ascending. -/
def mentorsOf (combined : Combined) : List ℤ :=
  sortAsc ((combined.map (fun kr => kr.1.2)).dedup)

/-- The `valid_pairs` list of `perform_matching` (lines 70-73): the keys
and total scores of the records with `valid = True`, in input order. -/
def validPairsOf (combined : Combined) : List ((ℤ × ℤ) × PyFloat) :=
  combined.filterMap (fun kr =>
    if kr.2.valid then some (kr.1, kr.2.total_score) else none)

/-- The mutable state of `perform_matching`: the matched mentee and
mentor id sets and the list of selected pair keys. -/
structure MatchState where
  matched_mentees : Finset ℤ
  matched_mentors : Finset ℤ
  selected : List (ℤ × ℤ)

/-- First pass (lines 83-87): walk the sorted valid pairs, selecting a
pair whenever both its mentee and its mentor are still unmatched. -/
def pass1 : List ((ℤ × ℤ) × PyFloat) → MatchState → MatchState
  | [], s => s
  | (k, _) :: rest, s =>
      if k.1 ∉ s.matched_mentees ∧ k.2 ∉ s.matched_mentors then
        pass1 rest
          ⟨insert k.1 s.matched_mentees, insert k.2 s.matched_mentors,
            s.selected ++ [k]⟩
      else pass1 rest s

/-- The best-candidate scan shared by the two repair passes: walk all of
`combined` (valid or not), keeping the key of the highest `total_score`
among entries satisfying `cond`, starting from `best_score = -1` with a
strict `>` update. -/
def bestLoop (cond : (ℤ × ℤ) → Bool) :
    Combined → Option (ℤ × ℤ) × PyFloat → Option (ℤ × ℤ) × PyFloat
  | [], acc => acc
  | (k, r) :: rest, acc =>
      if cond k && PyFloat.gt r.total_score acc.2 then
        bestLoop cond rest (some k, r.total_score)
      else bestLoop cond rest acc

/-- The inner scan of the second pass (lines 94-101): the best pair of an
unmatched mentee towards a still unmatched mentor. -/
def bestForMentee (combined : Combined) (mentee : ℤ) (mentors : Finset ℤ) :
    Option (ℤ × ℤ) :=
  (bestLoop (fun k => decide (k.1 = mentee) && decide (k.2 ∉ mentors)) combined
    (none, PyFloat.fin (-1))).1

/-- The inner scan of the third pass (lines 109-116): the best pair of an
unmatched mentor towards a still unmatched mentee. -/
def bestForMentor (combined : Combined) (mentor : ℤ) (mentees : Finset ℤ) :
    Option (ℤ × ℤ) :=
  (bestLoop (fun k => decide (k.2 = mentor) && decide (k.1 ∉ mentees)) combined
    (none, PyFloat.fin (-1))).1

/-- Second pass (lines 92-105): give each still unmatched mentee its best
remaining pair, regardless of the pair's `valid` flag. -/
def pass2 (combined : Combined) : List ℤ → MatchState → MatchState
  | [], s => s
  | mentee :: rest, s =>
      match bestForMentee combined mentee s.matched_mentors with
      | some k =>
          pass2 combined rest
            ⟨insert mentee s.matched_mentees, insert k.2 s.matched_mentors,
              s.selected ++ [k]⟩
      | none => pass2 combined rest s

/-- Third pass (lines 107-120): symmetric repair for unmatched mentors. -/
def pass3 (combined : Combined) : List ℤ → MatchState → MatchState
  | [], s => s
  | mentor :: rest, s =>
      match bestForMentor combined mentor s.matched_mentees with
      | some k =>
          pass3 combined rest
            ⟨insert k.1 s.matched_mentees, insert mentor s.matched_mentors,
              s.selected ++ [k]⟩
      | none => pass3 combined rest s

/-- State after the greedy first pass of `perform_matching`. -/
def pass1State (combined : Combined) : MatchState :=
  pass1 (sortDesc (validPairsOf combined)) ⟨∅, ∅, []⟩

/-- State after the second pass (unmatched-mentee repair). -/
def pass2State (combined : Combined) : MatchState :=
  pass2 combined
    ((menteesOf combined).filter (fun m => m ∉ (pass1State combined).matched_mentees))
    (pass1State combined)

/-- State after the third pass (unmatched-mentor repair). -/
def pass3State (combined : Combined) : MatchState :=
  pass3 combined
    ((mentorsOf combined).filter (fun n => n ∉ (pass2State combined).matched_mentors))
    (pass2State combined)

/-- `perform_matching` (final_match.py lines 68-123): the selected pair
keys after the greedy pass and the two repair passes. -/
def perform_matching (combined : Combined) : List (ℤ × ℤ) :=
  (pass3State combined).selected

/-- One emitted output record of `compute_final_matches_from_data`:
the pair record plus the ids and the `is_matched` flag. -/
structure OutRec extends Rec where
  mentor_id : ℤ
  mentee_id : ℤ
  is_matched : Bool
deriving DecidableEq

/-- `compute_final_matches_from_data` (final_match.py lines 153-308):
aggregate all category scores per candidate pair, apply manual overrides,
run the matching, and return every pair (matched or not) with its
`is_matched` flag. -/
def compute_final_matches_from_data (c : CatMaps)
    (manual_matches manual_non_matches : List (ℤ × ℤ)) : List OutRec :=
  let combined := combinedOf c manual_matches manual_non_matches
  let selected_pairs := perform_matching combined
  combined.map (fun kr =>
    { toRec := kr.2
      mentor_id := kr.1.2
      mentee_id := kr.1.1
      is_matched := decide (kr.1 ∈ selected_pairs) })

theorem insertAsc_perm (x : ℤ) (l : List ℤ) : (insertAsc x l).Perm (x :: l) := by
  induction l with
  | nil => simp [insertAsc]
  | cons y ys ih =>
      by_cases h : x ≤ y
      · simp [insertAsc, h]
      · simp only [insertAsc, if_neg h]
        exact ((ih.cons y).trans (List.Perm.swap x y ys))

theorem sortAsc_perm (l : List ℤ) : (sortAsc l).Perm l := by
  induction l with
  | nil => simp [sortAsc]
  | cons x xs ih =>
      have h1 : sortAsc (x :: xs) = insertAsc x (sortAsc xs) := rfl
      rw [h1]
      exact (insertAsc_perm x (sortAsc xs)).trans (ih.cons x)

theorem mem_sortAsc {a : ℤ} {l : List ℤ} : a ∈ sortAsc l ↔ a ∈ l :=
  (sortAsc_perm l).mem_iff

theorem sortAsc_nodup {l : List ℤ} (h : l.Nodup) : (sortAsc l).Nodup :=
  ((sortAsc_perm l).nodup_iff).mpr h

theorem insertDesc_perm (x : (ℤ × ℤ) × PyFloat) (l : List ((ℤ × ℤ) × PyFloat)) :
    (insertDesc x l).Perm (x :: l) := by
  induction l with
  | nil => simp [insertDesc]
  | cons y ys ih =>
      by_cases h : PyFloat.gt y.2 x.2
      · simp only [insertDesc, if_pos h]
        exact ((ih.cons y).trans (List.Perm.swap x y ys))
      · simp [insertDesc, h]

theorem sortDesc_perm (l : List ((ℤ × ℤ) × PyFloat)) : (sortDesc l).Perm l := by
  induction l with
  | nil => simp [sortDesc]
  | cons x xs ih =>
      have h1 : sortDesc (x :: xs) = insertDesc x (sortDesc xs) := rfl
      rw [h1]
      exact (insertDesc_perm x (sortDesc xs)).trans (ih.cons x)

theorem mem_sortDesc {a : (ℤ × ℤ) × PyFloat} {l : List ((ℤ × ℤ) × PyFloat)} :
    a ∈ sortDesc l ↔ a ∈ l :=
  (sortDesc_perm l).mem_iff

theorem toFinset_concat {α : Type} [DecidableEq α] (l : List α) (a : α) :
    (l ++ [a]).toFinset = insert a l.toFinset := by
  ext x
  simp [or_comm]

/-- The sorted valid-pair list is weakly descending: no later element has
a strictly greater score (Python's `>`) than an earlier one. -/
def DescBy (l : List ((ℤ × ℤ) × PyFloat)) : Prop :=
  l.Pairwise (fun a b => PyFloat.gt b.2 a.2 = false)

theorem insertDesc_sorted {x : (ℤ × ℤ) × PyFloat} {l : List ((ℤ × ℤ) × PyFloat)}
    (hx : x.2 ≠ PyFloat.nan) (hl : ∀ p ∈ l, p.2 ≠ PyFloat.nan) (h : DescBy l) :
    DescBy (insertDesc x l) := by
  induction l with
  | nil => simp [insertDesc, DescBy]
  | cons y ys ih =>
      rcases List.pairwise_cons.mp h with ⟨hy, hys⟩
      by_cases hgt : PyFloat.gt y.2 x.2 = true
      · simp only [insertDesc, if_pos hgt]
        refine List.pairwise_cons.mpr ⟨?_, ?_⟩
        · intro z hz
          rcases List.mem_cons.mp ((insertDesc_perm x ys).mem_iff.mp hz) with hzx | hzys
          · rw [hzx]
            exact PyFloat.gt_asymm hgt
          · exact hy z hzys
        · exact ih (fun p hp => hl p (List.mem_cons_of_mem y hp)) hys
      · have hgt' : PyFloat.gt y.2 x.2 = false := by
          revert hgt
          cases PyFloat.gt y.2 x.2 <;> simp
        simp only [insertDesc, if_neg hgt]
        refine List.pairwise_cons.mpr ⟨?_, h⟩
        intro z hz
        rcases List.mem_cons.mp hz with hzy | hzys
        · rw [hzy]
          exact hgt'
        · exact PyFloat.not_gt_trans hx (hl y (List.mem_cons_self y ys))
            (hl z (List.mem_cons_of_mem y hzys)) hgt' (hy z hzys)

theorem sortDesc_sorted {l : List ((ℤ × ℤ) × PyFloat)}
    (h : ∀ p ∈ l, p.2 ≠ PyFloat.nan) : DescBy (sortDesc l) := by
  induction l with
  | nil => simp [sortDesc, DescBy]
  | cons x xs ih =>
      have h1 : sortDesc (x :: xs) = insertDesc x (sortDesc xs) := rfl
      rw [h1]
      refine insertDesc_sorted (h x (List.mem_cons_self x xs)) ?_
        (ih (fun p hp => h p (List.mem_cons_of_mem x hp)))
      intro p hp
      exact h p (List.mem_cons_of_mem x (mem_sortDesc.mp hp))

theorem insertDesc_filter_score (c : PyFloat) (x : (ℤ × ℤ) × PyFloat) :
    ∀ l : List ((ℤ × ℤ) × PyFloat),
      (insertDesc x l).filter (fun p => decide (p.2 = c)) =
        ((x :: l).filter (fun p => decide (p.2 = c))) := by
  intro l
  induction l with
  | nil => simp [insertDesc]
  | cons y ys ih =>
      by_cases hgt : PyFloat.gt y.2 x.2 = true
      · have hne : ¬(x.2 = c ∧ y.2 = c) := by
          rintro ⟨hx, hy⟩
          rw [hx, hy] at hgt
          rw [PyFloat.gt_irrefl] at hgt
          exact Bool.false_ne_true hgt
        simp only [insertDesc, if_pos hgt]
        by_cases hx : x.2 = c <;> by_cases hy : y.2 = c
        · exact absurd ⟨hx, hy⟩ hne
        · simp [List.filter, hx, hy, ih]
        · simp [List.filter, hx, hy, ih]
        · simp [List.filter, hx, hy, ih]
      · simp [insertDesc, hgt]

theorem sortDesc_filter_score (c : PyFloat) :
    ∀ l : List ((ℤ × ℤ) × PyFloat),
      (sortDesc l).filter (fun p => decide (p.2 = c)) =
        l.filter (fun p => decide (p.2 = c)) := by
  intro l
  induction l with
  | nil => rfl
  | cons x xs ih =>
      have h1 : sortDesc (x :: xs) = insertDesc x (sortDesc xs) := rfl
      rw [h1, insertDesc_filter_score]
      by_cases hx : x.2 = c <;> simp [List.filter, hx, ih]

theorem bestLoop_isSome {cond : (ℤ × ℤ) → Bool} :
    ∀ (l : Combined) (acc : Option (ℤ × ℤ) × PyFloat), acc.1.isSome = true →
      ((bestLoop cond l acc).1).isSome = true := by
  intro l
  induction l with
  | nil => intro acc h; simpa [bestLoop] using h
  | cons kr rest ih =>
      intro acc h
      obtain ⟨k, r⟩ := kr
      by_cases hc : (cond k && PyFloat.gt r.total_score acc.2) = true
      · simp only [bestLoop, if_pos hc]
        exact ih _ rfl
      · simp only [bestLoop, if_neg hc]
        exact ih _ h

theorem bestLoop_none {cond : (ℤ × ℤ) → Bool} :
    ∀ (l : Combined), (bestLoop cond l (none, PyFloat.fin (-1))).1 = none →
      ∀ kr ∈ l, cond kr.1 = false ∨
        PyFloat.gt kr.2.total_score (PyFloat.fin (-1)) = false := by
  intro l
  induction l with
  | nil => intro _ kr hkr; cases hkr
  | cons kr0 rest ih =>
      intro h kr hkr
      obtain ⟨k, r⟩ := kr0
      by_cases hc : (cond k && PyFloat.gt r.total_score (PyFloat.fin (-1))) = true
      · exfalso
        have hs := @bestLoop_isSome cond rest (some k, r.total_score) rfl
        have h' : bestLoop cond ((k, r) :: rest) (none, PyFloat.fin (-1)) =
            bestLoop cond rest (some k, r.total_score) := by
          simp only [bestLoop, if_pos hc]
        rw [h'] at h
        rw [h] at hs
        simp at hs
      · have h' : bestLoop cond ((k, r) :: rest) (none, PyFloat.fin (-1)) =
            bestLoop cond rest (none, PyFloat.fin (-1)) := by
          simp only [bestLoop, if_neg hc]
        rw [h'] at h
        rcases List.mem_cons.mp hkr with hkr0 | hmem
        · rw [hkr0]
          simp only [Bool.and_eq_true, not_and] at hc
          rcases Bool.eq_false_or_eq_true (cond k) with ht | hf
          · right
            have hng := hc ht
            revert hng
            cases PyFloat.gt r.total_score (PyFloat.fin (-1)) <;> simp
          · exact Or.inl hf
        · exact ih h kr hmem

theorem bestLoop_some {cond : (ℤ × ℤ) → Bool} :
    ∀ (l : Combined) (acc : Option (ℤ × ℤ) × PyFloat) (k : ℤ × ℤ),
      (acc.2 = PyFloat.fin (-1) ∨ PyFloat.gt acc.2 (PyFloat.fin (-1)) = true) →
      (bestLoop cond l acc).1 = some k →
      acc.1 = some k ∨ ∃ r : Rec, (k, r) ∈ l ∧ cond k = true ∧
        PyFloat.gt r.total_score (PyFloat.fin (-1)) = true := by
  intro l
  induction l with
  | nil => intro acc k _ h; left; simpa [bestLoop] using h
  | cons kr0 rest ih =>
      intro acc k hge h
      obtain ⟨k0, r0⟩ := kr0
      by_cases hc : (cond k0 && PyFloat.gt r0.total_score acc.2) = true
      · have h' : bestLoop cond ((k0, r0) :: rest) acc =
            bestLoop cond rest (some k0, r0.total_score) := by
          simp only [bestLoop, if_pos hc]
        rw [h'] at h
        have hcs := hc
        simp only [Bool.and_eq_true] at hcs
        obtain ⟨hcond, hgtacc⟩ := hcs
        have hgt1 : PyFloat.gt r0.total_score (PyFloat.fin (-1)) = true := by
          rcases hge with he | hgt
          · rw [he] at hgtacc
            exact hgtacc
          · exact PyFloat.gt_trans hgtacc hgt
        rcases ih (some k0, r0.total_score) k (Or.inr hgt1) h with hsome | ⟨r, hr, hcnd, hgtr⟩
        · right
          have hk : k0 = k := by
            simpa using hsome
          subst hk
          exact ⟨r0, List.mem_cons_self _ _, hcond, hgt1⟩
        · exact Or.inr ⟨r, List.mem_cons_of_mem _ hr, hcnd, hgtr⟩
      · have h' : bestLoop cond ((k0, r0) :: rest) acc = bestLoop cond rest acc := by
          simp only [bestLoop, if_neg hc]
        rw [h'] at h
        rcases ih acc k hge h with h1 | ⟨r, hr, hcnd, hgtr⟩
        · exact Or.inl h1
        · exact Or.inr ⟨r, List.mem_cons_of_mem _ hr, hcnd, hgtr⟩

theorem bestForMentee_some {combined : Combined} {mentee : ℤ} {mentors : Finset ℤ}
    {k : ℤ × ℤ} (h : bestForMentee combined mentee mentors = some k) :
    k.1 = mentee ∧ k.2 ∉ mentors ∧ ∃ r : Rec, (k, r) ∈ combined ∧
      PyFloat.gt r.total_score (PyFloat.fin (-1)) = true := by
  rcases bestLoop_some combined (none, PyFloat.fin (-1)) k (Or.inl rfl) h with
    h1 | ⟨r, hr, hcnd, hgtr⟩
  · exact Option.noConfusion h1
  · simp only [Bool.and_eq_true, decide_eq_true_eq] at hcnd
    exact ⟨hcnd.1, hcnd.2, r, hr, hgtr⟩

theorem bestForMentee_none {combined : Combined} {mentee : ℤ} {mentors : Finset ℤ}
    (h : bestForMentee combined mentee mentors = none) :
    ∀ kr ∈ combined, kr.1.1 = mentee → kr.1.2 ∉ mentors →
      PyFloat.gt kr.2.total_score (PyFloat.fin (-1)) = false := by
  intro kr hkr h1 h2
  rcases bestLoop_none combined h kr hkr with hc | hgt
  · exfalso
    simp [h1, h2] at hc
  · exact hgt

theorem bestForMentor_some {combined : Combined} {mentor : ℤ} {mentees : Finset ℤ}
    {k : ℤ × ℤ} (h : bestForMentor combined mentor mentees = some k) :
    k.2 = mentor ∧ k.1 ∉ mentees ∧ ∃ r : Rec, (k, r) ∈ combined ∧
      PyFloat.gt r.total_score (PyFloat.fin (-1)) = true := by
  rcases bestLoop_some combined (none, PyFloat.fin (-1)) k (Or.inl rfl) h with
    h1 | ⟨r, hr, hcnd, hgtr⟩
  · exact Option.noConfusion h1
  · simp only [Bool.and_eq_true, decide_eq_true_eq] at hcnd
    exact ⟨hcnd.1, hcnd.2, r, hr, hgtr⟩

theorem bestForMentor_none {combined : Combined} {mentor : ℤ} {mentees : Finset ℤ}
    (h : bestForMentor combined mentor mentees = none) :
    ∀ kr ∈ combined, kr.1.2 = mentor → kr.1.1 ∉ mentees →
      PyFloat.gt kr.2.total_score (PyFloat.fin (-1)) = false := by
  intro kr hkr h1 h2
  rcases bestLoop_none combined h kr hkr with hc | hgt
  · exfalso
    simp [h1, h2] at hc
  · exact hgt

theorem pass1_mono : ∀ (l : List ((ℤ × ℤ) × PyFloat)) (s : MatchState),
    s.matched_mentees ⊆ (pass1 l s).matched_mentees ∧
    s.matched_mentors ⊆ (pass1 l s).matched_mentors ∧
    ∀ q ∈ s.selected, q ∈ (pass1 l s).selected := by
  intro l
  induction l with
  | nil =>
      intro s
      exact ⟨Finset.Subset.refl _, Finset.Subset.refl _, fun q hq => hq⟩
  | cons x rest ih =>
      intro s
      obtain ⟨k, sc⟩ := x
      by_cases h : k.1 ∉ s.matched_mentees ∧ k.2 ∉ s.matched_mentors
      · simp only [pass1, if_pos h]
        rcases ih ⟨insert k.1 s.matched_mentees, insert k.2 s.matched_mentors,
          s.selected ++ [k]⟩ with ⟨h1, h2, h3⟩
        refine ⟨Finset.Subset.trans (Finset.subset_insert _ _) h1,
          Finset.Subset.trans (Finset.subset_insert _ _) h2, ?_⟩
        intro q hq
        exact h3 q (List.mem_append_left _ hq)
      · simp only [pass1, if_neg h]
        exact ih s

theorem pass2_mono (combined : Combined) : ∀ (l : List ℤ) (s : MatchState),
    s.matched_mentees ⊆ (pass2 combined l s).matched_mentees ∧
    s.matched_mentors ⊆ (pass2 combined l s).matched_mentors ∧
    ∀ q ∈ s.selected, q ∈ (pass2 combined l s).selected := by
  intro l
  induction l with
  | nil =>
      intro s
      exact ⟨Finset.Subset.refl _, Finset.Subset.refl _, fun q hq => hq⟩
  | cons mentee rest ih =>
      intro s
      cases hbest : bestForMentee combined mentee s.matched_mentors with
      | some k =>
          simp only [pass2, hbest]
          rcases ih ⟨insert mentee s.matched_mentees, insert k.2 s.matched_mentors,
            s.selected ++ [k]⟩ with ⟨h1, h2, h3⟩
          refine ⟨Finset.Subset.trans (Finset.subset_insert _ _) h1,
            Finset.Subset.trans (Finset.subset_insert _ _) h2, ?_⟩
          intro q hq
          exact h3 q (List.mem_append_left _ hq)
      | none =>
          simp only [pass2, hbest]
          exact ih s

theorem pass3_mono (combined : Combined) : ∀ (l : List ℤ) (s : MatchState),
    s.matched_mentees ⊆ (pass3 combined l s).matched_mentees ∧
    s.matched_mentors ⊆ (pass3 combined l s).matched_mentors ∧
    ∀ q ∈ s.selected, q ∈ (pass3 combined l s).selected := by
  intro l
  induction l with
  | nil =>
      intro s
      exact ⟨Finset.Subset.refl _, Finset.Subset.refl _, fun q hq => hq⟩
  | cons mentor rest ih =>
      intro s
      cases hbest : bestForMentor combined mentor s.matched_mentees with
      | some k =>
          simp only [pass3, hbest]
          rcases ih ⟨insert k.1 s.matched_mentees, insert mentor s.matched_mentors,
            s.selected ++ [k]⟩ with ⟨h1, h2, h3⟩
          refine ⟨Finset.Subset.trans (Finset.subset_insert _ _) h1,
            Finset.Subset.trans (Finset.subset_insert _ _) h2, ?_⟩
          intro q hq
          exact h3 q (List.mem_append_left _ hq)
      | none =>
          simp only [pass3, hbest]
          exact ih s

theorem pass1_sel : ∀ (l : List ((ℤ × ℤ) × PyFloat)) (s : MatchState) (q : ℤ × ℤ),
    q ∈ (pass1 l s).selected → q ∈ s.selected ∨ ∃ sc, (q, sc) ∈ l := by
  intro l
  induction l with
  | nil =>
      intro s q hq
      exact Or.inl hq
  | cons x rest ih =>
      intro s q hq
      obtain ⟨k, sc⟩ := x
      by_cases h : k.1 ∉ s.matched_mentees ∧ k.2 ∉ s.matched_mentors
      · simp only [pass1, if_pos h] at hq
        rcases ih _ q hq with hsel | ⟨sc', hsc'⟩
        · rcases List.mem_append.mp hsel with hs | hk
          · exact Or.inl hs
          · right
            refine ⟨sc, ?_⟩
            have hqk : q = k := by simpa using hk
            rw [hqk]
            exact List.mem_cons_self _ _
        · exact Or.inr ⟨sc', List.mem_cons_of_mem _ hsc'⟩
      · simp only [pass1, if_neg h] at hq
        rcases ih s q hq with hs | ⟨sc', hsc'⟩
        · exact Or.inl hs
        · exact Or.inr ⟨sc', List.mem_cons_of_mem _ hsc'⟩

theorem pass2_sel (combined : Combined) : ∀ (l : List ℤ) (s : MatchState) (q : ℤ × ℤ),
    q ∈ (pass2 combined l s).selected → q ∈ s.selected ∨
      ∃ r : Rec, (q, r) ∈ combined ∧ PyFloat.gt r.total_score (PyFloat.fin (-1)) = true := by
  intro l
  induction l with
  | nil =>
      intro s q hq
      exact Or.inl hq
  | cons mentee rest ih =>
      intro s q hq
      cases hbest : bestForMentee combined mentee s.matched_mentors with
      | some k =>
          simp only [pass2, hbest] at hq
          rcases ih _ q hq with hsel | hr
          · rcases List.mem_append.mp hsel with hs | hk
            · exact Or.inl hs
            · right
              have hqk : q = k := by simpa using hk
              rcases bestForMentee_some hbest with ⟨_, _, r, hrmem, hrgt⟩
              rw [hqk]
              exact ⟨r, hrmem, hrgt⟩
          · exact Or.inr hr
      | none =>
          simp only [pass2, hbest] at hq
          exact ih s q hq

theorem pass3_sel (combined : Combined) : ∀ (l : List ℤ) (s : MatchState) (q : ℤ × ℤ),
    q ∈ (pass3 combined l s).selected → q ∈ s.selected ∨
      ∃ r : Rec, (q, r) ∈ combined ∧ PyFloat.gt r.total_score (PyFloat.fin (-1)) = true := by
  intro l
  induction l with
  | nil =>
      intro s q hq
      exact Or.inl hq
  | cons mentor rest ih =>
      intro s q hq
      cases hbest : bestForMentor combined mentor s.matched_mentees with
      | some k =>
          simp only [pass3, hbest] at hq
          rcases ih _ q hq with hsel | hr
          · rcases List.mem_append.mp hsel with hs | hk
            · exact Or.inl hs
            · right
              have hqk : q = k := by simpa using hk
              rcases bestForMentor_some hbest with ⟨_, _, r, hrmem, hrgt⟩
              rw [hqk]
              exact ⟨r, hrmem, hrgt⟩
          · exact Or.inr hr
      | none =>
          simp only [pass3, hbest] at hq
          exact ih s q hq

/-- Invariant maintained by all three passes: selected pairs use pairwise
distinct mentees and pairwise distinct mentors, every selected endpoint is
recorded in the matched sets, and every selected key occurs in `combined`. -/
def SolverInv (combined : Combined) (s : MatchState) : Prop :=
  (s.selected.map Prod.fst).Nodup ∧ (s.selected.map Prod.snd).Nodup ∧
  (∀ q ∈ s.selected, q.1 ∈ s.matched_mentees ∧ q.2 ∈ s.matched_mentors) ∧
  (∀ q ∈ s.selected, ∃ r : Rec, (q, r) ∈ combined)

theorem solverInv_step {combined : Combined} {s : MatchState} {k : ℤ × ℤ}
    (hinv : SolverInv combined s) (hm : k.1 ∉ s.matched_mentees)
    (hn : k.2 ∉ s.matched_mentors) (hk : ∃ r : Rec, (k, r) ∈ combined) :
    SolverInv combined
      ⟨insert k.1 s.matched_mentees, insert k.2 s.matched_mentors,
        s.selected ++ [k]⟩ := by
  rcases hinv with ⟨h1, h2, h3, h4⟩
  refine ⟨?_, ?_, ?_, ?_⟩
  · rw [List.map_append]
    simp only [List.map_cons, List.map_nil]
    rw [List.nodup_append]
    refine ⟨h1, List.nodup_singleton _, ?_⟩
    intro x hx hx1
    have hxk : x = k.1 := by simpa using hx1
    rcases List.mem_map.mp hx with ⟨q, hq, hqx⟩
    exact hm (hxk ▸ hqx ▸ (h3 q hq).1)
  · rw [List.map_append]
    simp only [List.map_cons, List.map_nil]
    rw [List.nodup_append]
    refine ⟨h2, List.nodup_singleton _, ?_⟩
    intro x hx hx1
    have hxk : x = k.2 := by simpa using hx1
    rcases List.mem_map.mp hx with ⟨q, hq, hqx⟩
    exact hn (hxk ▸ hqx ▸ (h3 q hq).2)
  · intro q hq
    rcases List.mem_append.mp hq with hq1 | hq2
    · exact ⟨Finset.mem_insert_of_mem (h3 q hq1).1,
        Finset.mem_insert_of_mem (h3 q hq1).2⟩
    · have hqk : q = k := by simpa using hq2
      rw [hqk]
      exact ⟨Finset.mem_insert_self _ _, Finset.mem_insert_self _ _⟩
  · intro q hq
    rcases List.mem_append.mp hq with hq1 | hq2
    · exact h4 q hq1
    · have hqk : q = k := by simpa using hq2
      rw [hqk]
      exact hk

theorem pass1_inv {combined : Combined} : ∀ (l : List ((ℤ × ℤ) × PyFloat)) (s : MatchState),
    (∀ x ∈ l, ∃ r : Rec, (x.1, r) ∈ combined) → SolverInv combined s →
    SolverInv combined (pass1 l s) := by
  intro l
  induction l with
  | nil => intro s _ hinv; exact hinv
  | cons x rest ih =>
      intro s hl hinv
      obtain ⟨k, sc⟩ := x
      by_cases h : k.1 ∉ s.matched_mentees ∧ k.2 ∉ s.matched_mentors
      · simp only [pass1, if_pos h]
        refine ih _ (fun y hy => hl y (List.mem_cons_of_mem _ hy)) ?_
        exact solverInv_step hinv h.1 h.2 (hl (k, sc) (List.mem_cons_self _ _))
      · simp only [pass1, if_neg h]
        exact ih s (fun y hy => hl y (List.mem_cons_of_mem _ hy)) hinv

theorem pass2_inv {combined : Combined} : ∀ (l : List ℤ) (s : MatchState),
    l.Nodup → (∀ m ∈ l, m ∉ s.matched_mentees) → SolverInv combined s →
    SolverInv combined (pass2 combined l s) := by
  intro l
  induction l with
  | nil => intro s _ _ hinv; exact hinv
  | cons mentee rest ih =>
      intro s hnd hout hinv
      rcases List.nodup_cons.mp hnd with ⟨hm, hnd'⟩
      cases hbest : bestForMentee combined mentee s.matched_mentors with
      | some k =>
          simp only [pass2, hbest]
          rcases bestForMentee_some hbest with ⟨hk1, hk2, r, hr, _⟩
          have hstep := solverInv_step hinv
            (by rw [hk1]; exact hout mentee (List.mem_cons_self _ _)) hk2 ⟨r, hr⟩
          rw [hk1] at hstep
          refine ih _ hnd' ?_ hstep
          intro m hmr
          simp only [Finset.mem_insert, not_or]
          exact ⟨fun he => hm (he ▸ hmr), hout m (List.mem_cons_of_mem _ hmr)⟩
      | none =>
          simp only [pass2, hbest]
          exact ih s hnd' (fun m hmr => hout m (List.mem_cons_of_mem _ hmr)) hinv

theorem pass3_inv {combined : Combined} : ∀ (l : List ℤ) (s : MatchState),
    l.Nodup → (∀ n ∈ l, n ∉ s.matched_mentors) → SolverInv combined s →
    SolverInv combined (pass3 combined l s) := by
  intro l
  induction l with
  | nil => intro s _ _ hinv; exact hinv
  | cons mentor rest ih =>
      intro s hnd hout hinv
      rcases List.nodup_cons.mp hnd with ⟨hm, hnd'⟩
      cases hbest : bestForMentor combined mentor s.matched_mentees with
      | some k =>
          simp only [pass3, hbest]
          rcases bestForMentor_some hbest with ⟨hk2, hk1, r, hr, _⟩
          have hstep := solverInv_step hinv hk1
            (by rw [hk2]; exact hout mentor (List.mem_cons_self _ _)) ⟨r, hr⟩
          rw [hk2] at hstep
          refine ih _ hnd' ?_ hstep
          intro n hnr
          simp only [Finset.mem_insert, not_or]
          exact ⟨fun he => hm (he ▸ hnr), hout n (List.mem_cons_of_mem _ hnr)⟩
      | none =>
          simp only [pass3, hbest]
          exact ih s hnd' (fun n hnr => hout n (List.mem_cons_of_mem _ hnr)) hinv

/-- The matched sets are exactly the endpoints of the selected pairs. -/
def EndInv (s : MatchState) : Prop :=
  s.matched_mentees = (s.selected.map Prod.fst).toFinset ∧
  s.matched_mentors = (s.selected.map Prod.snd).toFinset

theorem endInv_step {s : MatchState} {k : ℤ × ℤ} (h : EndInv s) :
    EndInv ⟨insert k.1 s.matched_mentees, insert k.2 s.matched_mentors,
      s.selected ++ [k]⟩ := by
  rcases h with ⟨h1, h2⟩
  constructor
  · show insert k.1 s.matched_mentees = ((s.selected ++ [k]).map Prod.fst).toFinset
    rw [List.map_append, List.map_cons, List.map_nil, toFinset_concat, h1]
  · show insert k.2 s.matched_mentors = ((s.selected ++ [k]).map Prod.snd).toFinset
    rw [List.map_append, List.map_cons, List.map_nil, toFinset_concat, h2]

theorem pass1_endInv : ∀ (l : List ((ℤ × ℤ) × PyFloat)) (s : MatchState),
    EndInv s → EndInv (pass1 l s) := by
  intro l
  induction l with
  | nil => intro s h; exact h
  | cons x rest ih =>
      intro s h
      obtain ⟨k, sc⟩ := x
      by_cases hc : k.1 ∉ s.matched_mentees ∧ k.2 ∉ s.matched_mentors
      · simp only [pass1, if_pos hc]
        exact ih _ (endInv_step h)
      · simp only [pass1, if_neg hc]
        exact ih s h

theorem pass2_endInv (combined : Combined) : ∀ (l : List ℤ) (s : MatchState),
    EndInv s → EndInv (pass2 combined l s) := by
  intro l
  induction l with
  | nil => intro s h; exact h
  | cons mentee rest ih =>
      intro s h
      cases hbest : bestForMentee combined mentee s.matched_mentors with
      | some k =>
          simp only [pass2, hbest]
          rcases bestForMentee_some hbest with ⟨hk1, _, _⟩
          have hstep := @endInv_step s k h
          rw [hk1] at hstep
          exact ih _ hstep
      | none =>
          simp only [pass2, hbest]
          exact ih s h

theorem pass3_endInv (combined : Combined) : ∀ (l : List ℤ) (s : MatchState),
    EndInv s → EndInv (pass3 combined l s) := by
  intro l
  induction l with
  | nil => intro s h; exact h
  | cons mentor rest ih =>
      intro s h
      cases hbest : bestForMentor combined mentor s.matched_mentees with
      | some k =>
          simp only [pass3, hbest]
          rcases bestForMentor_some hbest with ⟨hk2, _, _⟩
          have hstep := @endInv_step s k h
          rw [hk2] at hstep
          exact ih _ hstep
      | none =>
          simp only [pass3, hbest]
          exact ih s h

/-- If a pair of `combined` scores above the repair threshold `-1` and its
mentee is on the second pass's worklist, then after the second pass the
mentee is matched or the pair's mentor is. -/
theorem pass2_processes {combined : Combined} {k : ℤ × ℤ} {r : Rec}
    (hk : (k, r) ∈ combined)
    (hgt : PyFloat.gt r.total_score (PyFloat.fin (-1)) = true) :
    ∀ (l : List ℤ) (s : MatchState), k.1 ∈ l →
      k.1 ∈ (pass2 combined l s).matched_mentees ∨
      k.2 ∈ (pass2 combined l s).matched_mentors := by
  intro l
  induction l with
  | nil => intro s hin; cases hin
  | cons mentee rest ih =>
      intro s hin
      rcases List.mem_cons.mp hin with heq | hmem
      · cases hbest : bestForMentee combined mentee s.matched_mentors with
        | some k0 =>
            simp only [pass2, hbest]
            left
            have : k.1 ∈ (insert mentee s.matched_mentees : Finset ℤ) := by
              rw [heq]
              exact Finset.mem_insert_self _ _
            exact (pass2_mono combined rest _).1 this
        | none =>
            simp only [pass2, hbest]
            right
            have hnn : k.2 ∈ s.matched_mentors := by
              by_contra hnot
              have := bestForMentee_none hbest (k, r) hk (by rw [heq]) hnot
              rw [hgt] at this
              cases this
            exact (pass2_mono combined rest s).2.1 hnn
      · cases hbest : bestForMentee combined mentee s.matched_mentors with
        | some k0 =>
            simp only [pass2, hbest]
            exact ih _ hmem
        | none =>
            simp only [pass2, hbest]
            exact ih s hmem

theorem validPairsOf_mem {combined : Combined} {x : (ℤ × ℤ) × PyFloat}
    (h : x ∈ validPairsOf combined) :
    ∃ r : Rec, (x.1, r) ∈ combined ∧ r.valid = true ∧ r.total_score = x.2 := by
  rcases List.mem_filterMap.mp h with ⟨kr, hkr, hf⟩
  by_cases hv : kr.2.valid = true
  · rw [if_pos hv] at hf
    have hx := Option.some.inj hf
    refine ⟨kr.2, ?_, hv, ?_⟩
    · rw [← hx]
      simpa using hkr
    · rw [← hx]
  · rw [if_neg hv] at hf
    exact Option.noConfusion hf

theorem combinedOf_mem {c : CatMaps} {mm mnm : List (ℤ × ℤ)} {p : ℤ × ℤ} {r : Rec}
    (h : (p, r) ∈ combinedOf c mm mnm) : r = combinePair c mm mnm p := by
  rcases List.mem_map.mp h with ⟨a, _, ha⟩
  injection ha with h1 h2
  rw [← h2, h1]

theorem perform_matching_sel {combined : Combined} {q : ℤ × ℤ}
    (h : q ∈ perform_matching combined) :
    (∃ sc, (q, sc) ∈ validPairsOf combined) ∨
    (∃ r : Rec, (q, r) ∈ combined ∧
      PyFloat.gt r.total_score (PyFloat.fin (-1)) = true) := by
  have h3 : q ∈ (pass3 combined
      ((mentorsOf combined).filter (fun n => n ∉ (pass2State combined).matched_mentors))
      (pass2State combined)).selected := h
  rcases pass3_sel combined _ _ q h3 with h2 | hr
  · have h2' : q ∈ (pass2 combined
        ((menteesOf combined).filter (fun m => m ∉ (pass1State combined).matched_mentees))
        (pass1State combined)).selected := h2
    rcases pass2_sel combined _ _ q h2' with h1 | hr
    · have h1' : q ∈ (pass1 (sortDesc (validPairsOf combined))
          ⟨∅, ∅, []⟩).selected := h1
      rcases pass1_sel _ _ q h1' with h0 | ⟨sc, hsc⟩
      · exact absurd h0 (List.not_mem_nil q)
      · exact Or.inl ⟨sc, mem_sortDesc.mp hsc⟩
    · exact Or.inr hr
  · exact Or.inr hr

theorem not_selected_of_neginf {combined : Combined} {p : ℤ × ℤ}
    (h : ∀ r : Rec, (p, r) ∈ combined →
      r.valid = false ∧ r.total_score = PyFloat.negInf) :
    p ∉ perform_matching combined := by
  intro hp
  rcases perform_matching_sel hp with ⟨sc, hsc⟩ | ⟨r, hr, hgt⟩
  · rcases validPairsOf_mem hsc with ⟨r, hrmem, hval, _⟩
    have hf := (h r hrmem).1
    rw [hf] at hval
    exact Bool.noConfusion hval
  · have hf := (h r hr).2
    rw [hf] at hgt
    simp [PyFloat.gt] at hgt

theorem not_in_pass1_of_invalid {combined : Combined} {p : ℤ × ℤ}
    (h : ∀ r : Rec, (p, r) ∈ combined → r.valid = false) :
    p ∉ (pass1State combined).selected := by
  intro hp
  have hp' : p ∈ (pass1 (sortDesc (validPairsOf combined)) ⟨∅, ∅, []⟩).selected := hp
  rcases pass1_sel _ _ p hp' with h0 | ⟨sc, hsc⟩
  · exact absurd h0 (List.not_mem_nil p)
  · rcases validPairsOf_mem (mem_sortDesc.mp hsc) with ⟨r, hrmem, hval, _⟩
    rw [h r hrmem] at hval
    exact Bool.noConfusion hval

/-- C4: in every assignment computed by `perform_matching`, no mentee id
and no mentor id occurs in more than one selected pair, across all three
passes; hence the assignment size is bounded by the smaller cohort. -/
theorem C4_injectivity (combined : Combined) :
    ((perform_matching combined).map Prod.fst).Nodup ∧
    ((perform_matching combined).map Prod.snd).Nodup ∧
    (perform_matching combined).length ≤
      min ((combined.map (fun kr => kr.1.1)).toFinset.card)
        ((combined.map (fun kr => kr.1.2)).toFinset.card) := by
  have hinv0 : SolverInv combined ⟨∅, ∅, []⟩ := by
    refine ⟨List.nodup_nil, List.nodup_nil, ?_, ?_⟩ <;>
      exact fun q hq => absurd hq (List.not_mem_nil q)
  have hinv1 : SolverInv combined (pass1State combined) := by
    refine pass1_inv _ _ ?_ hinv0
    intro x hx
    rcases validPairsOf_mem (mem_sortDesc.mp hx) with ⟨r, hrmem, _, _⟩
    exact ⟨r, hrmem⟩
  have hinv2 : SolverInv combined (pass2State combined) := by
    refine pass2_inv _ _ ?_ ?_ hinv1
    · exact (sortAsc_nodup (List.nodup_dedup _)).filter _
    · intro m hm
      have hm2 := (List.mem_filter.mp hm).2
      simpa using hm2
  have hinv3 : SolverInv combined (pass3State combined) := by
    refine pass3_inv _ _ ?_ ?_ hinv2
    · exact (sortAsc_nodup (List.nodup_dedup _)).filter _
    · intro n hn
      have hn2 := (List.mem_filter.mp hn).2
      simpa using hn2
  rcases hinv3 with ⟨h1, h2, _, h4⟩
  have h1' : ((perform_matching combined).map Prod.fst).Nodup := h1
  have h2' : ((perform_matching combined).map Prod.snd).Nodup := h2
  have h4' : ∀ q ∈ perform_matching combined, ∃ r : Rec, (q, r) ∈ combined := h4
  refine ⟨h1', h2', ?_⟩
  have hlen1 : (perform_matching combined).length ≤
      (combined.map (fun kr => kr.1.1)).toFinset.card := by
    have he : (perform_matching combined).length =
        ((perform_matching combined).map Prod.fst).length := by
      rw [List.length_map]
    rw [he, ← List.toFinset_card_of_nodup h1']
    apply Finset.card_le_card
    intro x hx
    rcases List.mem_map.mp (List.mem_toFinset.mp hx) with ⟨q, hq, hqx⟩
    rcases h4' q hq with ⟨r, hr⟩
    exact List.mem_toFinset.mpr (List.mem_map.mpr ⟨(q, r), hr, by rw [← hqx]⟩)
  have hlen2 : (perform_matching combined).length ≤
      (combined.map (fun kr => kr.1.2)).toFinset.card := by
    have he : (perform_matching combined).length =
        ((perform_matching combined).map Prod.snd).length := by
      rw [List.length_map]
    rw [he, ← List.toFinset_card_of_nodup h2']
    apply Finset.card_le_card
    intro x hx
    rcases List.mem_map.mp (List.mem_toFinset.mp hx) with ⟨q, hq, hqx⟩
    rcases h4' q hq with ⟨r, hr⟩
    exact List.mem_toFinset.mpr (List.mem_map.mpr ⟨(q, r), hr, by rw [← hqx]⟩)
  exact le_min hlen1 hlen2

/-- C5 (amended): the computed assignment is maximal at the repair
threshold: every pair of `combined` whose total score exceeds `-1` has at
least one endpoint covered by the assignment.  Full cohort coverage is
not guaranteed even when the valid pairs admit a perfect matching (see
the counterexample). -/
theorem C5_threshold_maximality (combined : Combined) (k : ℤ × ℤ) (r : Rec)
    (hmem : (k, r) ∈ combined)
    (hgt : PyFloat.gt r.total_score (PyFloat.fin (-1)) = true) :
    (∃ q ∈ perform_matching combined, q.1 = k.1) ∨
    (∃ q ∈ perform_matching combined, q.2 = k.2) := by
  by_contra hcon
  push_neg at hcon
  rcases hcon with ⟨h1, h2⟩
  have hend0 : EndInv ⟨∅, ∅, []⟩ := by
    constructor <;> simp
  have hend1 := pass1_endInv (sortDesc (validPairsOf combined)) _ hend0
  have hend2 := pass2_endInv combined
    ((menteesOf combined).filter (fun m => m ∉ (pass1State combined).matched_mentees))
    _ hend1
  have hend3 := pass3_endInv combined
    ((mentorsOf combined).filter (fun n => n ∉ (pass2State combined).matched_mentors))
    _ hend2
  have hend3' : EndInv (pass3State combined) := hend3
  have hk1 : k.1 ∉ (pass3State combined).matched_mentees := by
    rw [hend3'.1]
    intro hmem1
    rcases List.mem_map.mp (List.mem_toFinset.mp hmem1) with ⟨q, hq, hqx⟩
    exact h1 q hq hqx
  have hk2 : k.2 ∉ (pass3State combined).matched_mentors := by
    rw [hend3'.2]
    intro hmem2
    rcases List.mem_map.mp (List.mem_toFinset.mp hmem2) with ⟨q, hq, hqx⟩
    exact h2 q hq hqx
  have hmono3 := pass3_mono combined
    ((mentorsOf combined).filter (fun n => n ∉ (pass2State combined).matched_mentors))
    (pass2State combined)
  have hk1s2 : k.1 ∉ (pass2State combined).matched_mentees :=
    fun hc => hk1 (hmono3.1 hc)
  have hk2s2 : k.2 ∉ (pass2State combined).matched_mentors :=
    fun hc => hk2 (hmono3.2.1 hc)
  have hmono2 := pass2_mono combined
    ((menteesOf combined).filter (fun m => m ∉ (pass1State combined).matched_mentees))
    (pass1State combined)
  have hk1s1 : k.1 ∉ (pass1State combined).matched_mentees :=
    fun hc => hk1s2 (hmono2.1 hc)
  have hmentee : k.1 ∈ menteesOf combined :=
    mem_sortAsc.mpr (List.mem_dedup.mpr (List.mem_map.mpr ⟨(k, r), hmem, rfl⟩))
  have hfilter : k.1 ∈ (menteesOf combined).filter
      (fun m => m ∉ (pass1State combined).matched_mentees) :=
    List.mem_filter.mpr ⟨hmentee, by simpa using hk1s1⟩
  rcases pass2_processes hmem hgt _ (pass1State combined) hfilter with hc1 | hc2
  · exact hk1s2 hc1
  · exact hk2s2 hc2

/-- C3: a pair hit by `manual_matches` (in either orientation) and not hit
by `manual_non_matches` gets `total_score = +inf` and `valid = true`,
regardless of every individual criterion value. -/
theorem C3_forced_match (c : CatMaps) (mm mnm : List (ℤ × ℤ)) (p : ℤ × ℤ)
    (h1 : hitsList mm p = true) (h2 : hitsList mnm p = false) :
    (combinePair c mm mnm p).total_score = PyFloat.posInf ∧
    (combinePair c mm mnm p).valid = true := by
  constructor <;> simp [combinePair, h1, h2, PyFloat.round3]

/-- C1 (amended): a pair whose gender score or language score is not
strictly positive (including `-inf` there) and with no manual match gets
`valid = false` and is never selected by the greedy first pass; the claim
fails for the repair passes and for `-inf` in the other criteria (see the
counterexample). -/
theorem C1_gate_disqualification (c : CatMaps) (mm mnm : List (ℤ × ℤ)) (p : ℤ × ℤ)
    (hmm : hitsList mm p = false)
    (hg : PyFloat.gt (criterionScore c.gender p) (PyFloat.fin 0) = false ∨
      PyFloat.gt (criterionScore c.languages p) (PyFloat.fin 0) = false) :
    (combinePair c mm mnm p).valid = false ∧
    p ∉ (pass1State (combinedOf c mm mnm)).selected := by
  have hvalid : (combinePair c mm mnm p).valid = false := by
    cases hn : hitsList mnm p <;> rcases hg with hg | hg <;>
      simp [combinePair, hmm, hn, hg]
  refine ⟨hvalid, ?_⟩
  apply not_in_pass1_of_invalid
  intro r hr
  rw [combinedOf_mem hr]
  exact hvalid

/-- C7: for a pair with no manual override, positive gender and language
scores and finite academia and distance scores, the total score is the
weighted combination `0.7 * academic + 0.3 * distance` rounded to three
decimals; gender and language only gate validity and do not enter the sum. -/
theorem C7_weighted_combination (c : CatMaps) (mm mnm : List (ℤ × ℤ)) (p : ℤ × ℤ)
    (qa qd : ℚ)
    (hmm : hitsList mm p = false) (hmnm : hitsList mnm p = false)
    (hg : PyFloat.gt (criterionScore c.gender p) (PyFloat.fin 0) = true)
    (hl : PyFloat.gt (criterionScore c.languages p) (PyFloat.fin 0) = true)
    (ha : criterionScore c.academia p = PyFloat.fin qa)
    (hd : criterionScore c.geographic_proximity p = PyFloat.fin qd) :
    (combinePair c mm mnm p).total_score =
      PyFloat.fin (PyFloat.round3Q (7/10 * qa + 3/10 * qd)) ∧
    (combinePair c mm mnm p).valid = true := by
  constructor <;>
    simp [combinePair, hmm, hmnm, hg, hl, ha, hd, PyFloat.add, PyFloat.mulPos,
      PyFloat.round3]

/-- C6 (amended): the solver's sort orders the valid pairs by total score
descending; it is a stable permutation of the input with no secondary
tie-breaking key, so pairs with equal scores keep their input order (the
claimed ascending-id tie-break does not exist, see the counterexample). -/
theorem C6_stable_sort (l : List ((ℤ × ℤ) × PyFloat))
    (h : ∀ p ∈ l, p.2 ≠ PyFloat.nan) :
    (sortDesc l).Perm l ∧ DescBy (sortDesc l) ∧
    ∀ c : PyFloat, (sortDesc l).filter (fun p => decide (p.2 = c)) =
      l.filter (fun p => decide (p.2 = c)) :=
  ⟨sortDesc_perm l, sortDesc_sorted h, fun c => sortDesc_filter_score c l⟩

/-- C8 (amended): an empty `combined` yields an empty assignment, and so
does one in which every pair is invalid with a total score not above the
repair threshold `-1` (as manual non-matches are); an ordinarily
disqualified pair with total score `0.0` is still selected by the repair
passes (see the counterexample). -/
theorem C8_empty_inputs (combined : Combined)
    (h : ∀ kr ∈ combined, kr.2.valid = false ∧
      PyFloat.gt kr.2.total_score (PyFloat.fin (-1)) = false) :
    perform_matching combined = [] ∧ perform_matching ([] : Combined) = [] := by
  constructor
  · have hvp : validPairsOf combined = [] := by
      unfold validPairsOf
      rw [List.filterMap_eq_nil_iff]
      intro kr hkr
      rw [if_neg]
      intro hv
      rw [(h kr hkr).1] at hv
      exact Bool.noConfusion hv
    have hs1 : pass1State combined = ⟨∅, ∅, []⟩ := by
      unfold pass1State
      rw [hvp]
      rfl
    have hbestee : ∀ (mentee : ℤ) (mns : Finset ℤ),
        bestForMentee combined mentee mns = none := by
      intro mentee mns
      cases hb : bestForMentee combined mentee mns with
      | none => rfl
      | some k =>
          exfalso
          rcases bestForMentee_some hb with ⟨_, _, r, hr, hgt⟩
          rw [(h (k, r) hr).2] at hgt
          exact Bool.noConfusion hgt
    have hbestor : ∀ (mentor : ℤ) (mes : Finset ℤ),
        bestForMentor combined mentor mes = none := by
      intro mentor mes
      cases hb : bestForMentor combined mentor mes with
      | none => rfl
      | some k =>
          exfalso
          rcases bestForMentor_some hb with ⟨_, _, r, hr, hgt⟩
          rw [(h (k, r) hr).2] at hgt
          exact Bool.noConfusion hgt
    have hp2 : ∀ (l : List ℤ) (s : MatchState), pass2 combined l s = s := by
      intro l
      induction l with
      | nil => intro s; rfl
      | cons mentee rest ih =>
          intro s
          simp only [pass2, hbestee]
          exact ih s
    have hp3 : ∀ (l : List ℤ) (s : MatchState), pass3 combined l s = s := by
      intro l
      induction l with
      | nil => intro s; rfl
      | cons mentor rest ih =>
          intro s
          simp only [pass3, hbestor]
          exact ih s
    have h2s : pass2State combined = ⟨∅, ∅, []⟩ := by
      unfold pass2State
      rw [hs1, hp2]
    have h3s : pass3State combined = ⟨∅, ∅, []⟩ := by
      unfold pass3State
      rw [h2s, hp3]
    show (pass3State combined).selected = []
    rw [h3s]
  · rfl

theorem compute_final_eq (c : CatMaps) (mm mnm : List (ℤ × ℤ)) :
    compute_final_matches_from_data c mm mnm =
      (combinedOf c mm mnm).map (fun kr =>
        { toRec := kr.2, mentor_id := kr.1.2, mentee_id := kr.1.1,
          is_matched := decide (kr.1 ∈ perform_matching (combinedOf c mm mnm)) }) :=
  rfl

/-- C2 (amended): a pair hit by `manual_non_matches` (either orientation)
is emitted with `valid = false`, `is_matched = false` and never appears in
the assignment, even when also present in `manual_matches`; contrary to
the claim it is not dropped from the emitted record list (see the
counterexample). -/
theorem C2_forced_exclusion (c : CatMaps) (mm mnm : List (ℤ × ℤ)) (p : ℤ × ℤ)
    (h : hitsList mnm p = true) :
    (∀ out ∈ compute_final_matches_from_data c mm mnm,
      out.mentee_id = p.1 → out.mentor_id = p.2 →
        out.valid = false ∧ out.total_score = PyFloat.negInf ∧
        out.is_matched = false) ∧
    (p ∈ allPairs c → ∃ out ∈ compute_final_matches_from_data c mm mnm,
      out.mentee_id = p.1 ∧ out.mentor_id = p.2) ∧
    p ∉ perform_matching (combinedOf c mm mnm) := by
  have hrec0 : (combinePair c mm mnm p).valid = false ∧
      (combinePair c mm mnm p).total_score = PyFloat.negInf := by
    constructor
    · simp [combinePair, h]
    · simp [combinePair, h, PyFloat.round3]
  have hnotsel : p ∉ perform_matching (combinedOf c mm mnm) := by
    apply not_selected_of_neginf
    intro r hr
    rw [combinedOf_mem hr]
    exact hrec0
  refine ⟨?_, ?_, hnotsel⟩
  · intro out hout hm1 hm2
    rw [compute_final_eq] at hout
    rcases List.mem_map.mp hout with ⟨kr, hkr, hkrout⟩
    obtain ⟨k, r⟩ := kr
    have hk1 : k.1 = p.1 := by
      rw [← hkrout] at hm1
      exact hm1
    have hk2 : k.2 = p.2 := by
      rw [← hkrout] at hm2
      exact hm2
    have hkp : k = p := Prod.ext hk1 hk2
    rw [hkp] at hkr
    have hrv := combinedOf_mem hkr
    refine ⟨?_, ?_, ?_⟩
    · rw [← hkrout]
      show r.valid = false
      rw [hrv]
      exact hrec0.1
    · rw [← hkrout]
      show r.total_score = PyFloat.negInf
      rw [hrv]
      exact hrec0.2
    · rw [← hkrout]
      show decide (k ∈ perform_matching (combinedOf c mm mnm)) = false
      rw [hkp]
      exact decide_eq_false hnotsel
  · intro hp
    rw [compute_final_eq]
    exact ⟨_, List.mem_map.mpr ⟨(p, combinePair c mm mnm p),
      List.mem_map.mpr ⟨p, hp, rfl⟩, rfl⟩, rfl, rfl⟩

theorem swapKey_swapKey (p : ℤ × ℤ) : swapKey (swapKey p) = p := rfl

theorem hitsList_map_swap (l : List (ℤ × ℤ)) (p : ℤ × ℤ) :
    hitsList (l.map swapKey) p = hitsList l p := by
  have h1 : (p ∈ l.map swapKey) ↔ swapKey p ∈ l := by
    constructor
    · intro hmem
      rcases List.mem_map.mp hmem with ⟨a, ha, hap⟩
      rw [← hap, swapKey_swapKey]
      exact ha
    · intro hmem
      exact List.mem_map.mpr ⟨swapKey p, hmem, swapKey_swapKey p⟩
  have h2 : (swapKey p ∈ l.map swapKey) ↔ p ∈ l := by
    constructor
    · intro hmem
      rcases List.mem_map.mp hmem with ⟨a, ha, hap⟩
      have hap2 : a = p := by
        have hc := congrArg swapKey hap
        rwa [swapKey_swapKey, swapKey_swapKey] at hc
      rw [← hap2]
      exact ha
    · intro hmem
      exact List.mem_map.mpr ⟨p, hmem, rfl⟩
  unfold hitsList
  rw [decide_eq_decide.mpr h1, decide_eq_decide.mpr h2, Bool.or_comm]

/-- C9: a manual match or non-match entry applies to a pair in either key
orientation, so supplying every override in mentor-first format produces
exactly the same output as mentee-first format. -/
theorem C9_override_orientation (c : CatMaps) (mm mnm : List (ℤ × ℤ)) :
    compute_final_matches_from_data c (mm.map swapKey) (mnm.map swapKey) =
      compute_final_matches_from_data c mm mnm := by
  have hcp : ∀ p, combinePair c (mm.map swapKey) (mnm.map swapKey) p =
      combinePair c mm mnm p := by
    intro p
    simp [combinePair, hitsList_map_swap]
  have hco : combinedOf c (mm.map swapKey) (mnm.map swapKey) = combinedOf c mm mnm := by
    unfold combinedOf
    have hf : (fun p => (p, combinePair c (mm.map swapKey) (mnm.map swapKey) p)) =
        (fun p => (p, combinePair c mm mnm p)) := by
      funext p
      rw [hcp p]
    rw [hf]
  rw [compute_final_eq, compute_final_eq, hco]

/-- A raw value as passed to the `to_float` helper, distinguishing an
integer too large for the float range (Python's `float()` raises
`OverflowError` on it) from in-range numeric values. -/
inductive PyRaw
  | pynone
  | num (x : PyFloat)
  | bigInt
  | str (s : String)
  | other
deriving DecidableEq

/-- Outcome of Python's `float(val)`: a value, a `ValueError` or
`TypeError` (the two exception types the helper's `except` clause
catches), or an `OverflowError` (raised for an out-of-range int, caught
by nothing in `to_float`). -/
inductive ConvResult
  | ok (x : PyFloat)
  | valueOrTypeError
  | overflowError
deriving DecidableEq

/-- Model of `float(val)` on a raw value: numbers pass through, a too
large int overflows, strings parse or raise `ValueError`, `None` and
other objects raise `TypeError`. -/
def floatConv : PyRaw → ConvResult
  | PyRaw.pynone => ConvResult.valueOrTypeError
  | PyRaw.num x => ConvResult.ok x
  | PyRaw.bigInt => ConvResult.overflowError
  | PyRaw.str s =>
      match pyStrToFloat s with
      | some x => ConvResult.ok x
      | none => ConvResult.valueOrTypeError
  | PyRaw.other => ConvResult.valueOrTypeError

/-- The `to_float` helper run on a raw value: `some` is the returned
float, `none` models an exception propagating out of the call.  Only the
`OverflowError` path escapes, since the `except` clause catches exactly
`(ValueError, TypeError)`.  The total `to_float` used by the aggregation
model is this function on the values where it cannot raise. -/
def to_float_run (val : PyRaw) : Option PyFloat :=
  match val with
  | PyRaw.pynone => some (PyFloat.fin 0)
  | PyRaw.str s =>
      if lowerChars s = "inf".data ∨ lowerChars s = "infinity".data then
        some PyFloat.posInf
      else if lowerChars s = "-inf".data ∨ lowerChars s = "-infinity".data then
        some PyFloat.negInf
      else
        match floatConv (PyRaw.str s) with
        | ConvResult.ok x => some x
        | ConvResult.valueOrTypeError => some (PyFloat.fin 0)
        | ConvResult.overflowError => none
  | v =>
      match floatConv v with
      | ConvResult.ok x => some x
      | ConvResult.valueOrTypeError => some (PyFloat.fin 0)
      | ConvResult.overflowError => none

/-- Embedding of the aggregation model's value space into the raw one. -/
def PyVal.toRaw : PyVal → PyRaw
  | PyVal.pynone => PyRaw.pynone
  | PyVal.num x => PyRaw.num x
  | PyVal.str s => PyRaw.str s
  | PyVal.other => PyRaw.other

/-- On the non-overflowing fragment the helper never raises and agrees
with the total `to_float` used in the aggregation model. -/
theorem to_float_run_toRaw (v : PyVal) : to_float_run v.toRaw = some (to_float v) := by
  cases v with
  | pynone => rfl
  | num x => rfl
  | other => rfl
  | str s =>
      by_cases h1 : lowerChars s = "inf".data ∨ lowerChars s = "infinity".data
      · simp [to_float_run, to_float, PyVal.toRaw, h1]
      · by_cases h2 : lowerChars s = "-inf".data ∨ lowerChars s = "-infinity".data
        · simp [to_float_run, to_float, PyVal.toRaw, h1, h2]
        · cases hp : pyStrToFloat s <;>
            simp [to_float_run, to_float, PyVal.toRaw, floatConv, pyFloatOf, h1, h2, hp]

/-- C10 (amended): score coercion handles every malformed value that
raises `ValueError` or `TypeError`: `None`, unparseable strings and
non-convertible objects coerce to `0.0`, the strings `inf`/`infinity`
and `-inf`/`-infinity` coerce case-insensitively to the infinities,
parseable strings (including PEP 515 underscore literals) and in-range
numbers pass through; but an integer too large for the float range
raises an uncaught `OverflowError`, so the extraction is not total. -/
theorem C10_score_extraction (s : String) :
    to_float_run PyRaw.pynone = some (PyFloat.fin 0) ∧
    to_float_run PyRaw.other = some (PyFloat.fin 0) ∧
    ((lowerChars s = "inf".data ∨ lowerChars s = "infinity".data) →
      to_float_run (PyRaw.str s) = some PyFloat.posInf) ∧
    ((lowerChars s = "-inf".data ∨ lowerChars s = "-infinity".data) →
      to_float_run (PyRaw.str s) = some PyFloat.negInf) ∧
    (¬(lowerChars s = "inf".data ∨ lowerChars s = "infinity".data) →
      ¬(lowerChars s = "-inf".data ∨ lowerChars s = "-infinity".data) →
      pyStrToFloat s = none → to_float_run (PyRaw.str s) = some (PyFloat.fin 0)) ∧
    (∀ x : PyFloat, ¬(lowerChars s = "inf".data ∨ lowerChars s = "infinity".data) →
      ¬(lowerChars s = "-inf".data ∨ lowerChars s = "-infinity".data) →
      pyStrToFloat s = some x → to_float_run (PyRaw.str s) = some x) ∧
    to_float_run PyRaw.bigInt = none := by
  refine ⟨rfl, rfl, ?_, ?_, ?_, ?_, rfl⟩
  · intro h
    simp only [to_float_run]
    rw [if_pos h]
  · intro h
    have hne : ¬(lowerChars s = "inf".data ∨ lowerChars s = "infinity".data) := by
      rcases h with h | h <;> rw [h] <;> decide
    simp only [to_float_run]
    rw [if_neg hne, if_pos h]
  · intro h1 h2 h3
    simp only [to_float_run]
    rw [if_neg h1, if_neg h2]
    have hc : floatConv (PyRaw.str s) = ConvResult.valueOrTypeError := by
      simp [floatConv, h3]
    rw [hc]
  · intro x h1 h2 h3
    simp only [to_float_run]
    rw [if_neg h1, if_neg h2]
    have hc : floatConv (PyRaw.str s) = ConvResult.ok x := by
      simp [floatConv, h3]
    rw [hc]

/-- C10 counterexample: on an integer too large for the float range the
`to_float` helper does not coerce to `0.0` but raises an uncaught
`OverflowError` (the call produces no value), so score extraction is not
total and can raise. -/
theorem C10_counterexample :
    to_float_run PyRaw.bigInt = none ∧
    to_float_run PyRaw.bigInt ≠ some (PyFloat.fin 0) :=
  ⟨rfl, fun h => Option.noConfusion h⟩

/-- Comparison following the spec's words for the solver's sort (section
4.2 step 2): `total_score` descending, ties broken by ascending left id
then ascending right id.  Stated for comparison with `sortDesc`, the sort
the code actually performs. -/
def specBefore (x y : (ℤ × ℤ) × PyFloat) : Bool :=
  PyFloat.gt x.2 y.2 ||
    (decide (x.2 = y.2) &&
      (decide (x.1.1 < y.1.1) ||
        (decide (x.1.1 = y.1.1) && decide (x.1.2 < y.1.2))))

/-- Insertion step of the spec-described sort. -/
def specInsertDesc (x : (ℤ × ℤ) × PyFloat) :
    List ((ℤ × ℤ) × PyFloat) → List ((ℤ × ℤ) × PyFloat)
  | [] => [x]
  | y :: ys => if specBefore y x then y :: specInsertDesc x ys else x :: y :: ys

/-- The sort described by the spec: score descending with the ascending-id
tie-break. -/
def specSortDesc : List ((ℤ × ℤ) × PyFloat) → List ((ℤ × ℤ) × PyFloat)
  | [] => []
  | x :: xs => specInsertDesc x (specSortDesc xs)

/-- A valid record with the given integral total score; only `total_score`
and `valid` are read by `perform_matching`. -/
def validRec (q : ℚ) : Rec :=
  ⟨PyFloat.fin q, PyFloat.fin 0, PyFloat.fin 1, PyFloat.fin 1, PyFloat.fin 0,
    PyFloat.fin 0, true⟩

/-- A disqualified record (gender score 0), `total_score` 0 as the code
assigns to invalid pairs. -/
def invalidRec : Rec :=
  ⟨PyFloat.fin 0, PyFloat.fin 0, PyFloat.fin 0, PyFloat.fin 1, PyFloat.fin 0,
    PyFloat.fin 0, false⟩

/-- A category entry: a dict holding the expected score field with a
finite numeric value. -/
def dnum (q : ℚ) : RawVal := RawVal.dict (some (PyVal.num (PyFloat.fin q)))

/-- Instance for the C1 counterexample, part one: academia reports `-inf`
while gender and language are positive. -/
def cexC1a : CatMaps :=
  { gender := [((1, 10), dnum 1)], languages := [((1, 10), dnum 1)],
    academia := [((1, 10), RawVal.dict (some (PyVal.num PyFloat.negInf)))],
    age_difference := [],
    geographic_proximity := [((1, 10), dnum 0)] }

/-- Instance for the C1 counterexample, part two: pair (2, 20) is
disqualified by gender yet gets picked up by the repair pass. -/
def cexC1b : CatMaps :=
  { gender := [((1, 10), dnum 1), ((1, 20), dnum 1), ((2, 20), dnum 0)]
    languages := [((1, 10), dnum 1), ((1, 20), dnum 1), ((2, 20), dnum 1)]
    academia := [((1, 10), dnum 1), ((1, 20), dnum 0), ((2, 20), dnum 1)]
    age_difference := []
    geographic_proximity := [((1, 10), dnum 1), ((1, 20), dnum 0), ((2, 20), dnum 1)] }

/-- The combined dictionary the aggregation produces on `cexC1b`. -/
def combinedC1b : Combined :=
  [((1, 10), ⟨PyFloat.fin 1, PyFloat.fin 1, PyFloat.fin 1, PyFloat.fin 1,
      PyFloat.fin 1, PyFloat.fin 0, true⟩),
   ((1, 20), ⟨PyFloat.fin 0, PyFloat.fin 0, PyFloat.fin 1, PyFloat.fin 1,
      PyFloat.fin 0, PyFloat.fin 0, true⟩),
   ((2, 20), ⟨PyFloat.fin 0, PyFloat.fin 1, PyFloat.fin 0, PyFloat.fin 1,
      PyFloat.fin 1, PyFloat.fin 0, false⟩)]

theorem combinedC1b_eq : combinedOf cexC1b [] [] = combinedC1b := by
  norm_num [combinedOf, allPairs, cexC1b, combinedC1b, combinePair, criterionScore,
    getRaw, alookup, extractScore, to_float, pyFloatOf, dnum, hitsList, swapKey,
    rawTruthy, PyFloat.gt, PyFloat.add, PyFloat.mulPos, PyFloat.round3,
    PyFloat.round3Q, PyFloat.roundHalfEven]

/-- C1 counterexample: on `cexC1a` the academia criterion reports `-inf`
yet the pair stays `valid = true`; on `cexC1b` the pair (2, 20) is
disqualified (gender score 0, `valid = false`) with no manual match, yet
it appears in the computed assignment via the second pass. -/
theorem C1_counterexample :
    (combinePair cexC1a [] [] (1, 10)).academic_score = PyFloat.negInf ∧
    (combinePair cexC1a [] [] (1, 10)).valid = true ∧
    criterionScore cexC1b.gender (2, 20) = PyFloat.fin 0 ∧
    (combinePair cexC1b [] [] (2, 20)).valid = false ∧
    (2, 20) ∈ perform_matching (combinedOf cexC1b [] []) := by
  refine ⟨by decide, by decide, by decide, by decide, ?_⟩
  rw [combinedC1b_eq]
  decide

/-- C1 witness: the amended disqualification theorem applied to the
gender-disqualified pair (2, 20) of `cexC1b`. -/
theorem C1_witness :
    (combinePair cexC1b [] [] (2, 20)).valid = false ∧
    (2, 20) ∉ (pass1State (combinedOf cexC1b [] [])).selected :=
  C1_gate_disqualification cexC1b [] [] (2, 20) (by decide) (Or.inl (by decide))

/-- Single fully-scored pair instance used for claim C2. -/
def cexC2cat : CatMaps :=
  { gender := [((1, 10), dnum 1)], languages := [((1, 10), dnum 1)],
    academia := [((1, 10), dnum 1)], age_difference := [],
    geographic_proximity := [((1, 10), dnum 1)] }

/-- C2 counterexample: the pair (1, 10) is in `manual_non_matches`, yet it
is still present in the emitted record list (with `valid = false`,
`total_score = -inf` and `is_matched = false`), contradicting the claim
that it is absent from the `PairRecord` output. -/
theorem C2_counterexample :
    ∃ out ∈ compute_final_matches_from_data cexC2cat [] [(1, 10)],
      out.mentee_id = 1 ∧ out.mentor_id = 10 ∧ out.valid = false ∧
      out.total_score = PyFloat.negInf ∧ out.is_matched = false := by
  rw [compute_final_eq]
  refine ⟨_, List.mem_map.mpr ⟨((1, 10), combinePair cexC2cat [] [(1, 10)] (1, 10)),
    List.mem_map.mpr ⟨(1, 10), by decide, rfl⟩, rfl⟩, rfl, rfl, by decide, by decide,
    by decide⟩

/-- C2 witness: the amended forced-exclusion theorem applied to `cexC2cat`
with the pair both in `manual_matches` and in `manual_non_matches`. -/
theorem C2_witness :
    (∀ out ∈ compute_final_matches_from_data cexC2cat [(1, 10)] [(1, 10)],
      out.mentee_id = 1 → out.mentor_id = 10 →
        out.valid = false ∧ out.total_score = PyFloat.negInf ∧
        out.is_matched = false) ∧
    ((1, 10) ∈ allPairs cexC2cat →
      ∃ out ∈ compute_final_matches_from_data cexC2cat [(1, 10)] [(1, 10)],
        out.mentee_id = 1 ∧ out.mentor_id = 10) ∧
    (1, 10) ∉ perform_matching (combinedOf cexC2cat [(1, 10)] [(1, 10)]) :=
  C2_forced_exclusion cexC2cat [(1, 10)] [(1, 10)] (1, 10) (by decide)

/-- Instance for claim C3: every criterion reports the disqualifying
score 0, the pair is forced via a mentor-first manual match entry. -/
def cexC3cat : CatMaps :=
  { gender := [((1, 10), dnum 0)], languages := [((1, 10), dnum 0)],
    academia := [((1, 10), dnum 0)], age_difference := [],
    geographic_proximity := [((1, 10), dnum 0)] }

/-- C3 witness: the forced-match theorem applied to `cexC3cat` with a
mentor-first entry and every criterion disqualifying. -/
theorem C3_witness :
    (combinePair cexC3cat [(10, 1)] [] (1, 10)).total_score = PyFloat.posInf ∧
    (combinePair cexC3cat [(10, 1)] [] (1, 10)).valid = true :=
  C3_forced_match cexC3cat [(10, 1)] [] (1, 10) (by decide) (by decide)

/-- Instance for claim C5: all three pairs valid; the valid-pair graph has
the perfect matching (1, 20), (2, 10) but greedy-with-repair picks (1, 10)
and strands mentee 2 and mentor 20. -/
def cexC5 : Combined :=
  [((1, 10), validRec 9), ((1, 20), validRec 5), ((2, 10), validRec 3)]

/-- Single-pair instance for the C5 witness. -/
def cexC5w : Combined := [((1, 10), validRec 9)]

/-- C5 counterexample: every pair of `cexC5` is valid, the pairs (1, 20)
and (2, 10) exist and form a perfect matching over mentees [1, 2] and
mentors [10, 20], yet the computed assignment is [(1, 10)], leaving
mentee 2 and mentor 20 unmatched. -/
theorem C5_counterexample :
    (∀ kr ∈ cexC5, kr.2.valid = true) ∧
    ((1, 20) ∈ cexC5.map Prod.fst ∧ (2, 10) ∈ cexC5.map Prod.fst) ∧
    menteesOf cexC5 = [1, 2] ∧
    mentorsOf cexC5 = [10, 20] ∧
    perform_matching cexC5 = [(1, 10)] := by decide

/-- C5 witness: the threshold-maximality theorem applied to `cexC5w`. -/
theorem C5_witness :
    (∃ q ∈ perform_matching cexC5w, q.1 = 1) ∨
    (∃ q ∈ perform_matching cexC5w, q.2 = 10) :=
  C5_threshold_maximality cexC5w (1, 10) (validRec 9) (by decide) (by decide)

/-- Two equal-score pairs for claim C6, deliberately listed with the
larger mentee id first. -/
def cexC6 : Combined := [((2, 10), validRec 5), ((1, 10), validRec 5)]

/-- Distinct-score list for the C6 witness. -/
def cexC6w : List ((ℤ × ℤ) × PyFloat) :=
  [((1, 10), PyFloat.fin 2), ((2, 20), PyFloat.fin 5)]

/-- C6 counterexample: on two equal-score pairs the code's sort keeps the
input order (2, 10) first, not the spec's ascending-id tie-break, and the
resulting assignment is [(2, 10)] where the spec-described sort would have
selected (1, 10). -/
theorem C6_counterexample :
    sortDesc (validPairsOf cexC6) ≠ specSortDesc (validPairsOf cexC6) ∧
    sortDesc (validPairsOf cexC6) =
      [((2, 10), PyFloat.fin 5), ((1, 10), PyFloat.fin 5)] ∧
    specSortDesc (validPairsOf cexC6) =
      [((1, 10), PyFloat.fin 5), ((2, 10), PyFloat.fin 5)] ∧
    perform_matching cexC6 = [(2, 10)] := by decide

/-- C6 witness: the stable-sort theorem applied to `cexC6w`. -/
theorem C6_witness :
    (sortDesc cexC6w).Perm cexC6w ∧ DescBy (sortDesc cexC6w) ∧
    ∀ c : PyFloat, (sortDesc cexC6w).filter (fun p => decide (p.2 = c)) =
      cexC6w.filter (fun p => decide (p.2 = c)) :=
  C6_stable_sort cexC6w (by decide)

/-- Instance for the C7 witness: gender and language positive, academia 2
and distance 1. -/
def cexC7cat : CatMaps :=
  { gender := [((1, 10), dnum 1)], languages := [((1, 10), dnum 1)],
    academia := [((1, 10), dnum 2)], age_difference := [],
    geographic_proximity := [((1, 10), dnum 1)] }

/-- C7 witness: the weighted-combination theorem applied to `cexC7cat`. -/
theorem C7_witness :
    (combinePair cexC7cat [] [] (1, 10)).total_score =
      PyFloat.fin (PyFloat.round3Q (7/10 * 2 + 3/10 * 1)) ∧
    (combinePair cexC7cat [] [] (1, 10)).valid = true :=
  C7_weighted_combination cexC7cat [] [] (1, 10) 2 1 (by decide) (by decide)
    (by decide) (by decide) (by decide) (by decide)

/-- Single disqualified pair with total score 0 for claim C8. -/
def cexC8 : Combined := [((1, 10), invalidRec)]

/-- Single manually excluded pair (total `-inf`) for the C8 witness. -/
def cexC8w : Combined :=
  [((1, 10), ⟨PyFloat.negInf, PyFloat.fin 0, PyFloat.fin 0, PyFloat.fin 1,
    PyFloat.fin 0, PyFloat.fin 0, false⟩)]

/-- C8 counterexample: a pair set in which every pair is disqualified
does not yield an empty assignment: the second pass selects the
disqualified pair (1, 10). -/
theorem C8_counterexample :
    (∀ kr ∈ cexC8, kr.2.valid = false) ∧ perform_matching cexC8 = [(1, 10)] := by
  decide

/-- C8 witness: the amended empty-result theorem applied to `cexC8w`. -/
theorem C8_witness :
    perform_matching cexC8w = [] ∧ perform_matching ([] : Combined) = [] :=
  C8_empty_inputs cexC8w (by decide)

/-- C10 witness: the amended coercion theorem applied to concrete
strings, including a PEP 515 underscore literal. -/
theorem C10_witness :
    to_float_run (PyRaw.str "INFINITY") = some PyFloat.posInf ∧
    to_float_run (PyRaw.str "-Inf") = some PyFloat.negInf ∧
    to_float_run (PyRaw.str "abc") = some (PyFloat.fin 0) ∧
    to_float_run (PyRaw.str "1_0") = some (PyFloat.fin 10) :=
  ⟨(C10_score_extraction "INFINITY").2.2.1 (by decide),
   (C10_score_extraction "-Inf").2.2.2.1 (by decide),
   (C10_score_extraction "abc").2.2.2.2.1 (by decide) (by decide) (by decide),
   (C10_score_extraction "1_0").2.2.2.2.2.1 (PyFloat.fin 10) (by decide) (by decide)
     (by decide)⟩
